import Mathlib

/-!
Verification development for the Flight_checker repository.

The repository holds two variants of a flight price monitor:
* `claude.py` — a Selenium scraper (`FlightPriceScraper`): `parse_price`,
  `search_google_flights`, `search_kayak`, `check_all_dates`,
  `load_price_history`.
* `weeks.py` — an Amadeus API client: `find_cheapest_flight`,
  `load_best_price`, `save_best_price`, and the `main` loop.

Dates are embedded as integers (day offsets); Python floats that carry prices
are embedded as `ℚ`, and the `float('inf')` sentinel used by the scraper is
embedded as `⊤` in `WithTop ℚ`.  Fallible Python code is embedded with
`Option`/`Except`: `none`/`Except.error` model a `None` result or a raised
exception, as documented at each definition.
-/

namespace FlightChecker

/-! ### Python `min` with a key function

`pyStep`/`pyMin` embed Python's `min(xs, key=f)` applied to a possibly empty
list: `none` on `[]`, otherwise the first element of minimal key (Python's
`min` keeps the earliest element on ties, because later elements replace the
running best only when strictly smaller). -/

def pyStep {α β : Type} [LinearOrder β] (f : α → β) (acc : Option α) (x : α) : Option α :=
  match acc with
  | none => some x
  | some b => if f x < f b then some x else acc

def pyMin {α β : Type} [LinearOrder β] (f : α → β) (l : List α) : Option α :=
  l.foldl (pyStep f) none

/-- Specification-side description of "the quote of minimum price, keeping the
first encountered on ties": `none` on `[]`; on `a :: l`, keep `a` whenever its
key is less than or equal to the best of the tail. -/
def firstMinBy {α β : Type} [LinearOrder β] (f : α → β) : List α → Option α
  | [] => none
  | a :: l =>
    match firstMinBy f l with
    | none => some a
    | some b => if f a ≤ f b then some a else some b

/-! ### claude.py — data model of the scraper -/

/-- One flight dict built by `search_google_flights` / `search_kayak`
(`price`, `airline`, `duration`, `departure_date`, `return_date`).
`price` is `WithTop ℚ`; `⊤` embeds Python `float('inf')`. -/
structure ScrapedFlight where
  price : WithTop ℚ
  airline : String
  duration : String
  departure_date : ℤ
  return_date : ℤ
  deriving DecidableEq

/-- Characters matched by the pattern of `parse_price` (a digit or a comma). -/
def priceChar (c : Char) : Bool := c.isDigit || c == ','

/-- Leftmost maximal run of digit-or-comma characters, as found by the regex
search inside `parse_price`; `none` when the text holds no such character. -/
def firstPriceRun : List Char → Option (List Char)
  | [] => none
  | c :: cs => if priceChar c then some (c :: cs.takeWhile priceChar) else firstPriceRun cs

/-- Value of a digit string, as computed by Python `float` on it. -/
def digitsVal (ds : List Char) : ℕ := ds.foldl (fun n c => 10 * n + (c.toNat - 48)) 0

/-- Embeds `FlightPriceScraper.parse_price`.  When the text holds no
digit-or-comma run, the function returns `float('inf')`, embedded as
`some ⊤`.  When the matched run holds only commas, `float('')` raises
`ValueError`, embedded as `none`. -/
def parse_price (price_text : String) : Option (WithTop ℚ) :=
  match firstPriceRun price_text.data with
  | none => some ⊤
  | some run =>
    match run.filter Char.isDigit with
    | [] => none
    | ds => some ((digitsVal ds : ℚ) : WithTop ℚ)

/-- One `[role=listitem]` flight card as seen by the scraping loop of
`search_google_flights`: `priceText` is the price element's text when the
element can be located (`none`: locating it raised and the card is skipped);
`details` is the airline/duration pair when both inner lookups succeed
(`none`: the inner lookup raised and both default to `"Unknown"`). -/
structure FlightElem where
  priceText : Option String
  details : Option (String × String)

/-- Outcome of driving the browser to the results page: `failure` embeds every
path on which `search_google_flights` returns `None` before reading cards
(driver setup error, navigation error, results timeout); `results` carries the
flight cards found on the page. -/
inductive PageResult where
  | failure
  | results (elems : List FlightElem)

/-- Body of the per-card loop of `search_google_flights`: parse the price
first (a raised `ValueError` or a missing price element skips the card), then
fill airline/duration, defaulting both to `"Unknown"`. -/
def processElem (departure_date return_date : ℤ) (e : FlightElem) : Option ScrapedFlight :=
  match e.priceText with
  | none => none
  | some t =>
    match parse_price t with
    | none => none
    | some p =>
      match e.details with
      | some (a, d) => some ⟨p, a, d, departure_date, return_date⟩
      | none => some ⟨p, "Unknown", "Unknown", departure_date, return_date⟩

/-- Embeds `FlightPriceScraper.search_google_flights`: on a loaded results
page, parse the first five cards, collect the successfully parsed flights,
and return the cheapest one (`None` when the list is empty or the page could
not be processed). -/
def search_google_flights (page : PageResult) (departure_date return_date : ℤ) :
    Option ScrapedFlight :=
  match page with
  | PageResult.failure => none
  | PageResult.results elems =>
    pyMin (fun f => f.price) ((elems.take 5).filterMap (processElem departure_date return_date))

/-! ### claude.py — date space and discovery engine -/

/-- The (departure, return) day-offset pairs enumerated by `check_all_dates`:
`dep_days` ranges over `1 .. search_days`, trip lengths over `2 .. 7`, and
`return_date = today + dep_days + trip_length`. -/
def dateSpace (search_days : ℕ) (today : ℤ) : List (ℤ × ℤ) :=
  (List.range search_days).flatMap (fun (i : ℕ) =>
    (List.range 6).map (fun (j : ℕ) =>
      (today + ((i : ℤ) + 1), today + ((i : ℤ) + 1) + ((j : ℤ) + 2))))

inductive SourceId where
  | google
  | kayak
  deriving DecidableEq

/-- The per-pair fallback of `check_all_dates`, instrumented with the ordered
list of source calls it performs: Google Flights is called first; Kayak is
called only when that returned `None`. -/
def tryPairTrace (sg sk : ℤ → ℤ → Option ScrapedFlight) (d r : ℤ) :
    Option ScrapedFlight × List (SourceId × ℤ × ℤ) :=
  match sg d r with
  | some fi => (some fi, [(SourceId.google, d, r)])
  | none => (sk d r, [(SourceId.google, d, r), (SourceId.kayak, d, r)])

/-- Result of the per-pair fallback (`flight_info` after the two statements at
lines 286-290 of claude.py). -/
def tryPair (sg sk : ℤ → ℤ → Option ScrapedFlight) (d r : ℤ) : Option ScrapedFlight :=
  (tryPairTrace sg sk d r).1

/-- Embeds the comparison both variants use to decide that a candidate beats
the current best (`flight_info['price'] < best_price` in claude.py,
`current_cheapest["price"] < all_time_best["price"]` in weeks.py):
true exactly when the candidate price is strictly lower. -/
def isNewRecord (candidate current : WithTop ℚ) : Bool :=
  decide (candidate < current)

/-- The `(best_flight, best_price)` accumulator update of the
`check_all_dates` loop body. -/
def updateBest (acc : Option ScrapedFlight × WithTop ℚ) (fi : Option ScrapedFlight) :
    Option ScrapedFlight × WithTop ℚ :=
  match fi with
  | some f => if isNewRecord f.price acc.2 then (some f, f.price) else acc
  | none => acc

def engineStep (sg sk : ℤ → ℤ → Option ScrapedFlight)
    (acc : Option ScrapedFlight × WithTop ℚ) (dr : ℤ × ℤ) :
    Option ScrapedFlight × WithTop ℚ :=
  updateBest acc (tryPair sg sk dr.1 dr.2)

/-- Embeds `FlightPriceScraper.check_all_dates`, with the two scraping methods
abstracted as the functions `sg`, `sk` from a date pair to their `Option`
result: fold the fallback over the date space, keeping the strictly cheapest
flight, starting from `best_price = float('inf')`. -/
def check_all_dates (sg sk : ℤ → ℤ → Option ScrapedFlight) (search_days : ℕ) (today : ℤ) :
    Option ScrapedFlight :=
  ((dateSpace search_days today).foldl (engineStep sg sk) (none, ⊤)).1

def engineTraceStep (sg sk : ℤ → ℤ → Option ScrapedFlight)
    (acc : (Option ScrapedFlight × WithTop ℚ) × List (SourceId × ℤ × ℤ)) (dr : ℤ × ℤ) :
    (Option ScrapedFlight × WithTop ℚ) × List (SourceId × ℤ × ℤ) :=
  (updateBest acc.1 (tryPairTrace sg sk dr.1 dr.2).1, acc.2 ++ (tryPairTrace sg sk dr.1 dr.2).2)

/-- `check_all_dates` instrumented with the ordered list of source calls the
cycle performs. -/
def check_all_dates_trace (sg sk : ℤ → ℤ → Option ScrapedFlight)
    (search_days : ℕ) (today : ℤ) :
    Option ScrapedFlight × List (SourceId × ℤ × ℤ) :=
  ((((dateSpace search_days today).foldl (engineTraceStep sg sk) ((none, ⊤), []))).1.1,
   (((dateSpace search_days today).foldl (engineTraceStep sg sk) ((none, ⊤), []))).2)

/-- The quotes the engine obtains over the whole date space: the per-pair
fallback result at every enumerated pair, in generation order. -/
def quotesOf (sg sk : ℤ → ℤ → Option ScrapedFlight) (search_days : ℕ) (today : ℤ) :
    List ScrapedFlight :=
  (dateSpace search_days today).filterMap (fun dr => tryPair sg sk dr.1 dr.2)

/-- The pairs for which a given call trace consulted the Google source. -/
def googleCallPairs (tr : List (SourceId × ℤ × ℤ)) : List (ℤ × ℤ) :=
  tr.filterMap (fun c => if c.1 = SourceId.google then some c.2 else none)

/-- Price of the current `best_flight` accumulator entry (the engine keeps
`best_price` equal to this throughout the loop). -/
def priceOf : Option ScrapedFlight → WithTop ℚ
  | none => ⊤
  | some f => f.price

/-- The `best_flight` update of the `check_all_dates` loop as a function of
the flight alone (the engine keeps `best_price = priceOf best_flight`
throughout, so the pair accumulator collapses to this). -/
def bestStep (b : Option ScrapedFlight) (f : ScrapedFlight) : Option ScrapedFlight :=
  if f.price < priceOf b then some f else b

/-! ### weeks.py — data model of the API variant -/

/-- The flight dict built by `find_cheapest_flight` (weeks.py): `price`,
`departure_date`, `return_date`.  The `link` field of the dict is a URL string
computed from the two dates; it carries no extra information and is omitted. -/
structure ApiFlight where
  price : ℚ
  departure_date : ℤ
  return_date : ℤ
  deriving DecidableEq

/-- Outcome of one Amadeus request, as distinguished by the loop body of
`find_cheapest_flight`:
* `reqError` — `raise_for_status` or the request raised a
  `requests.exceptions.RequestException` (caught; the loop continues);
* `badRequest` — HTTP status 400 (`continue`);
* `okOffers offers` — a successful response; each offer is the value of
  `float(x["price"]["total"])` when that evaluates, and `none` when the offer
  object is malformed and the conversion raises. -/
inductive FetchResult where
  | reqError
  | badRequest
  | okOffers (offers : List (Option ℚ))

/-- The prices of a batch of offers, or `none` when some offer is malformed
(Python's `min` evaluates the key on every offer, so one malformed offer makes
the whole batch raise). -/
def batchVals : List (Option ℚ) → Option (List ℚ)
  | [] => some []
  | none :: _ => none
  | some p :: rest => (batchVals rest).map (fun ps => p :: ps)

/-- `min(offers, key price)` followed by reading the price: the least offer
price of the batch; `none` when the batch is empty or some offer is
malformed. -/
def batchMin (offers : List (Option ℚ)) : Option ℚ :=
  match batchVals offers with
  | none => none
  | some [] => none
  | some (p :: ps) => some (ps.foldl min p)

/-- The departure dates enumerated by the `while current_date <= end_date`
loop of `find_cheapest_flight`, in order. -/
def searchDates (start_date end_date : ℤ) : List ℤ :=
  (List.range (end_date + 1 - start_date).toNat).map (fun (i : ℕ) => start_date + (i : ℤ))

/-- The loop of `find_cheapest_flight` over the remaining departure dates.
Returns the final `cheapest_flight` (`Except.error` embeds an uncaught
exception: a malformed offer in a nonempty successful batch raises
`KeyError`/`ValueError` outside the `RequestException` handler) together with
the list of dates the loop consulted before returning. -/
def fcf_go (fetch : ℤ → FetchResult) (trip_duration : ℤ) :
    List ℤ → Option ApiFlight → Except Unit (Option ApiFlight) × List ℤ
  | [], cheapest => (Except.ok cheapest, [])
  | d :: ds, cheapest =>
    match fetch d with
    | FetchResult.reqError =>
      let r := fcf_go fetch trip_duration ds cheapest
      (r.1, d :: r.2)
    | FetchResult.badRequest =>
      let r := fcf_go fetch trip_duration ds cheapest
      (r.1, d :: r.2)
    | FetchResult.okOffers offers =>
      if offers.isEmpty then
        let r := fcf_go fetch trip_duration ds cheapest
        (r.1, d :: r.2)
      else
        match batchMin offers with
        | none => (Except.error (), [d])
        | some current_price =>
          let cheapest' :=
            match cheapest with
            | none => some (⟨current_price, d, d + trip_duration⟩ : ApiFlight)
            | some c =>
              if current_price < c.price then some (⟨current_price, d, d + trip_duration⟩ : ApiFlight)
              else some c
          let r := fcf_go fetch trip_duration ds cheapest'
          (r.1, d :: r.2)

/-- Embeds `find_cheapest_flight` (weeks.py), with the Amadeus endpoint
abstracted as `fetch` from a departure date to the response for the pair
`(date, date + trip_duration)`. -/
def find_cheapest_flight (fetch : ℤ → FetchResult) (start_date end_date trip_duration : ℤ) :
    Except Unit (Option ApiFlight) :=
  (fcf_go fetch trip_duration (searchDates start_date end_date) none).1

/-- The departure dates `find_cheapest_flight` consults before returning. -/
def consultedDates (fetch : ℤ → FetchResult) (start_date end_date trip_duration : ℤ) :
    List ℤ :=
  (fcf_go fetch trip_duration (searchDates start_date end_date) none).2

/-- The quote obtained for each departure date with a nonempty, fully parsed
offer batch: the batch minimum, paired with the dates. -/
def apiQuotes (fetch : ℤ → FetchResult) (trip_duration : ℤ) (dates : List ℤ) :
    List ApiFlight :=
  dates.filterMap (fun d =>
    match fetch d with
    | FetchResult.okOffers offers =>
      (batchMin offers).map (fun p => (⟨p, d, d + trip_duration⟩ : ApiFlight))
    | _ => none)

/-- A response is well-formed when every offer it carries has a readable
price (vacuously true for error responses). -/
def fetchWF : FetchResult → Bool
  | FetchResult.okOffers offers => offers.all (fun o => o.isSome)
  | _ => true

/-! ### weeks.py — best-price ledger and notification protocol -/

/-- The persisted best-price record of weeks.py; only its `price` field is
ever compared (`⊤` embeds the `float('inf')` sentinel of the fresh record). -/
structure BestRecord where
  price : WithTop ℚ
  deriving DecidableEq

/-- State of the `best_price.json` file as seen by `load_best_price`:
`missing` (no file), `corrupt` (the file exists but `open`/`json.load`
raises), or `valid` with a parsed record. -/
inductive LedgerFileState where
  | missing
  | corrupt
  | valid (record : BestRecord)

/-- Embeds `load_best_price` (weeks.py): a missing file yields the
infinite-price sentinel `{"price": float('inf')}`; an existing file is read
with `json.load` with no handler around it, so a corrupt or unreadable file
raises (`Except.error`). -/
def load_best_price : LedgerFileState → Except Unit BestRecord
  | LedgerFileState.missing => Except.ok ⟨⊤⟩
  | LedgerFileState.corrupt => Except.error ()
  | LedgerFileState.valid r => Except.ok r

/-- State of the `price_history.json` file as seen by `load_price_history`
(claude.py): `missing`, `corrupt` (any raised exception while reading,
parsing, or reducing the history — the method catches everything), or `valid`
with the list of `(price, flight_info)` entries. -/
inductive HistoryFileState where
  | missing
  | corrupt
  | valid (entries : List (ℚ × String))

/-- Embeds `FlightPriceScraper.load_price_history`: the result is the
`(best_price, best_flight_info)` state after the call.  The state starts at
the sentinel `(float('inf'), None)`; every failure is caught by the
surrounding `try`/`except`, so the call always returns and failures leave the
sentinel in place; a nonempty history installs its minimum-price entry. -/
def load_price_history : HistoryFileState → WithTop ℚ × Option String
  | HistoryFileState.missing => (⊤, none)
  | HistoryFileState.corrupt => (⊤, none)
  | HistoryFileState.valid [] => (⊤, none)
  | HistoryFileState.valid (e :: es) =>
    ((((es.foldl (fun b x => if x.1 < b.1 then x else b) e)).1 : ℚ),
     some ((es.foldl (fun b x => if x.1 < b.1 then x else b) e)).2)

/-- File operations on the ledger path, at the granularity a concurrent
reader can observe: `open(path, "w")` truncates the file in place;
`json.dump` then writes the serialized record. -/
inductive FsOp where
  | truncate
  | writeAll (data : String)

def applyFsOp (_content : String) : FsOp → String
  | FsOp.truncate => ""
  | FsOp.writeAll data => data

/-- Embeds `save_best_price` (weeks.py) as the list of file operations it
performs on `best_price.json`: truncate in place, then write the serialized
record `data`.  No temporary file and no rename are involved. -/
def save_best_price_ops (data : String) : List FsOp :=
  [FsOp.truncate, FsOp.writeAll data]

/-- The successive contents of the ledger file a reader can observe while a
list of file operations runs, starting from content `init`. -/
def visibleContents (init : String) (ops : List FsOp) : List String :=
  ops.scanl applyFsOp init

/-- Ledger and notification actions performed by one iteration of the `main`
loop of weeks.py: attempting `save_best_price`, its successful return, and
the `send_email_notification` call. -/
inductive CycleAction where
  | commitAttempt (fi : ApiFlight)
  | commitDone (fi : ApiFlight)
  | notify (fi : ApiFlight)
  deriving DecidableEq

/-- Embeds the record-update branch of one `main` iteration (weeks.py lines
198-206) as the list of actions it performs.  `commitOk` states whether
`save_best_price` returns normally; when it raises, the exception propagates
before `send_email_notification` is reached, so the notify action is absent.
When the cycle found no flight, or the candidate is not strictly cheaper,
neither commit nor notify happens. -/
def main_cycle (current_cheapest : Option ApiFlight) (best : WithTop ℚ) (commitOk : Bool) :
    List CycleAction :=
  match current_cheapest with
  | none => []
  | some fi =>
    if isNewRecord ((fi.price : ℚ) : WithTop ℚ) best then
      CycleAction.commitAttempt fi ::
        (if commitOk then [CycleAction.commitDone fi, CycleAction.notify fi] else [])
    else []

/-- Number of notification calls in a cycle trace. -/
def countNotify (tr : List CycleAction) : ℕ :=
  tr.countP (fun a => match a with | CycleAction.notify _ => true | _ => false)

/-! ### Concrete instances used by witnesses and counterexamples -/

/-- A results page holding one flight card whose price text holds no digit:
`parse_price` yields `float('inf')` on it. -/
def pageInf : PageResult := PageResult.results [⟨some "N/A", none⟩]

/-- A Google source whose page always holds exactly the unparseable-price
card of `pageInf`. -/
def sgInf : ℤ → ℤ → Option ScrapedFlight := fun d r => search_google_flights pageInf d r

/-- A source that never finds a flight. -/
def skNone : ℤ → ℤ → Option ScrapedFlight := fun _ _ => none

/-- A source that always quotes 100 dollars. -/
def sgConst : ℤ → ℤ → Option ScrapedFlight :=
  fun d r => some ⟨((100 : ℚ) : WithTop ℚ), "A", "D", d, r⟩

/-- A secondary source that always quotes 200 dollars. -/
def skQuote : ℤ → ℤ → Option ScrapedFlight :=
  fun d r => some ⟨((200 : ℚ) : WithTop ℚ), "K", "K", d, r⟩

/-- An API endpoint that always returns one well-formed 350-dollar offer. -/
def fetchConst : ℤ → FetchResult := fun _ => FetchResult.okOffers [some (350 : ℚ)]

/-- An API endpoint that returns a successful response holding one malformed
offer (its price field cannot be read). -/
def fetchBad : ℤ → FetchResult := fun _ => FetchResult.okOffers [none]

/-- A concrete 300-dollar flight for the notification-protocol witness. -/
def cheapFlight : ApiFlight := ⟨300, 5, 19⟩

/-! ### Helper lemmas: Python `min` equals the first minimum -/

theorem pyFold_from {α β : Type} [LinearOrder β] (f : α → β) :
    ∀ (l : List α) (a : α),
      l.foldl (pyStep f) (some a) =
        some (match firstMinBy f l with
              | none => a
              | some b => if f b < f a then b else a) := by
  intro l
  induction l with
  | nil => intro a; rfl
  | cons x xs ih =>
    intro a
    have hstep : pyStep f (some a) x = some (if f x < f a then x else a) := by
      simp only [pyStep]
      by_cases h : f x < f a <;> simp [h]
    rw [List.foldl_cons, hstep, ih]
    rcases hb : firstMinBy f xs with _ | b
    · simp [firstMinBy, hb]
    · simp only [firstMinBy, hb]
      by_cases h1 : f x < f a
      · by_cases h2 : f x ≤ f b
        · have hnb : ¬ f b < f x := not_lt.mpr h2
          simp [h1, h2, hnb]
        · have hbx : f b < f x := not_le.mp h2
          have hba : f b < f a := lt_trans hbx h1
          simp [h1, h2, hbx, hba]
      · by_cases h2 : f x ≤ f b
        · have hnb : ¬ f b < f a := fun hba => h1 (lt_of_le_of_lt h2 hba)
          simp [h1, h2, hnb]
        · have hbx : f b < f x := not_le.mp h2
          simp [h1, h2]

theorem pyMin_eq_firstMinBy {α β : Type} [LinearOrder β] (f : α → β) (l : List α) :
    pyMin f l = firstMinBy f l := by
  cases l with
  | nil => rfl
  | cons a xs =>
    have h0 : pyStep f none a = some a := rfl
    rw [pyMin, List.foldl_cons, h0, pyFold_from f xs a]
    rcases hb : firstMinBy f xs with _ | b
    · simp [firstMinBy, hb]
    · simp only [firstMinBy, hb]
      by_cases h1 : f a ≤ f b
      · have hnb : ¬ f b < f a := not_lt.mpr h1
        simp [h1, hnb]
      · have hba : f b < f a := not_le.mp h1
        simp [h1, hba]

theorem firstMinBy_mem {α β : Type} [LinearOrder β] (f : α → β) :
    ∀ (l : List α) (a : α), firstMinBy f l = some a → a ∈ l := by
  intro l
  induction l with
  | nil => intro a h; simp [firstMinBy] at h
  | cons x xs ih =>
    intro a h
    rcases hb : firstMinBy f xs with _ | b
    · rw [firstMinBy, hb] at h
      simp at h
      simp [h]
    · rw [firstMinBy, hb] at h
      by_cases h1 : f x ≤ f b
      · simp [h1] at h
        simp [h]
      · simp [h1] at h
        subst h
        exact List.mem_cons_of_mem x (ih b hb)

theorem filterMap_none_of {α β : Type} (h : α → Option β) :
    ∀ (l : List α), (∀ a ∈ l, h a = none) → l.filterMap h = [] := by
  intro l
  induction l with
  | nil => intro _; rfl
  | cons x xs ih =>
    intro hall
    rw [List.filterMap_cons, hall x (List.mem_cons_self x xs)]
    exact ih (fun a ha => hall a (List.mem_cons_of_mem x ha))

theorem foldl_filterMap_eq {α β γ : Type} (h : α → Option β) (g : γ → β → γ) :
    ∀ (l : List α) (init : γ),
      (l.filterMap h).foldl g init =
        l.foldl (fun acc x => match h x with | none => acc | some y => g acc y) init := by
  intro l
  induction l with
  | nil => intro init; rfl
  | cons x xs ih =>
    intro init
    rcases hx : h x with _ | y <;> simp [List.filterMap_cons, hx, ih]

/-! ### Helper lemmas: the scraper engine reduces to the first minimum -/

theorem updateBest_fold_collapse :
    ∀ (l : List ScrapedFlight) (b : Option ScrapedFlight),
      l.foldl (fun acc f => updateBest acc (some f)) (b, priceOf b) =
        (l.foldl bestStep b, priceOf (l.foldl bestStep b)) := by
  intro l
  induction l with
  | nil => intro b; rfl
  | cons f fs ih =>
    intro b
    have hps : ∀ g : ScrapedFlight, priceOf (some g) = g.price := fun _ => rfl
    have hstep : updateBest (b, priceOf b) (some f) =
        (bestStep b f, priceOf (bestStep b f)) := by
      by_cases hc : f.price < priceOf b
      · simp [updateBest, isNewRecord, bestStep, hc, hps]
      · simp [updateBest, isNewRecord, bestStep, hc]
    rw [List.foldl_cons, hstep, ih, List.foldl_cons]

theorem bestStep_fold_filter :
    ∀ (l : List ScrapedFlight) (b : Option ScrapedFlight),
      (∀ g, b = some g → g.price < ⊤) →
      l.foldl bestStep b =
        (l.filter (fun f => decide (f.price < (⊤ : WithTop ℚ)))).foldl
          (pyStep (fun f => f.price)) b := by
  intro l
  induction l with
  | nil => intro b _; rfl
  | cons f fs ih =>
    intro b hb
    by_cases hf : f.price < (⊤ : WithTop ℚ)
    · have hstep : bestStep b f = pyStep (fun g => g.price) b f := by
        cases b with
        | none => simp [bestStep, pyStep, priceOf, hf]
        | some c => simp [bestStep, pyStep, priceOf]
      have hinv : ∀ g, pyStep (fun g => g.price) b f = some g → g.price < ⊤ := by
        intro g hg
        cases b with
        | none =>
          simp [pyStep] at hg
          exact hg ▸ hf
        | some c =>
          by_cases hcc : f.price < c.price
          · simp [pyStep, hcc] at hg
            exact hg ▸ hf
          · simp [pyStep, hcc] at hg
            exact hg ▸ hb c rfl
      rw [List.foldl_cons, hstep]
      rw [List.filter_cons_of_pos (by simpa using hf), List.foldl_cons]
      exact ih (pyStep (fun g => g.price) b f) hinv
    · have hftop : f.price = ⊤ := top_le_iff.mp (not_lt.mp hf)
      have hstep : bestStep b f = b := by
        cases b with
        | none => simp [bestStep, priceOf, hf]
        | some c =>
          have hnc : ¬ f.price < c.price := by
            rw [hftop]
            exact not_top_lt
          simp [bestStep, priceOf, hnc]
      rw [List.foldl_cons, hstep, List.filter_cons_of_neg (by simpa using hf)]
      exact ih b hb

theorem check_all_dates_eq (sg sk : ℤ → ℤ → Option ScrapedFlight)
    (search_days : ℕ) (today : ℤ) :
    check_all_dates sg sk search_days today =
      firstMinBy (fun f => f.price)
        ((quotesOf sg sk search_days today).filter
          (fun f => decide (f.price < (⊤ : WithTop ℚ)))) := by
  unfold check_all_dates quotesOf
  have h1 : (dateSpace search_days today).foldl (engineStep sg sk)
        ((none : Option ScrapedFlight), (⊤ : WithTop ℚ)) =
      ((dateSpace search_days today).filterMap
          (fun dr => tryPair sg sk dr.1 dr.2)).foldl
        (fun acc f => updateBest acc (some f)) (none, ⊤) := by
    rw [foldl_filterMap_eq]
    exact List.foldl_ext _ _ _ (fun acc dr _ => by
      cases h : tryPair sg sk dr.1 dr.2 <;> simp [engineStep, h, updateBest])
  rw [h1]
  have h0 : ((none : Option ScrapedFlight), (⊤ : WithTop ℚ)) = (none, priceOf none) := rfl
  rw [h0, updateBest_fold_collapse]
  rw [bestStep_fold_filter _ none (by intro g hg; cases hg)]
  rw [← pyMin, pyMin_eq_firstMinBy]

/-! ### Helper lemmas: the API loop reduces to the first minimum -/

theorem batchVals_of_all :
    ∀ (l : List (Option ℚ)), l.all (fun o => o.isSome) = true →
      ∃ ps, batchVals l = some ps := by
  intro l
  induction l with
  | nil => intro _; exact ⟨[], rfl⟩
  | cons o os ih =>
    intro h
    rw [List.all_cons, Bool.and_eq_true] at h
    rcases Option.isSome_iff_exists.mp h.1 with ⟨a, ha⟩
    rcases ih h.2 with ⟨ps, hps⟩
    subst ha
    exact ⟨a :: ps, by simp [batchVals, hps]⟩

theorem batchMin_of_all (l : List (Option ℚ)) (hne : l.isEmpty = false)
    (h : l.all (fun o => o.isSome) = true) : ∃ p, batchMin l = some p := by
  cases l with
  | nil => simp at hne
  | cons o os =>
    rw [List.all_cons, Bool.and_eq_true] at h
    rcases Option.isSome_iff_exists.mp h.1 with ⟨a, ha⟩
    rcases batchVals_of_all os h.2 with ⟨ps, hps⟩
    subst ha
    exact ⟨ps.foldl min a, by simp [batchMin, batchVals, hps]⟩

theorem fcf_go_spec (fetch : ℤ → FetchResult) (dur : ℤ) :
    ∀ (dates : List ℤ) (cheapest : Option ApiFlight),
      (∀ d ∈ dates, fetchWF (fetch d) = true) →
      fcf_go fetch dur dates cheapest =
        (Except.ok ((apiQuotes fetch dur dates).foldl (pyStep (fun f => f.price)) cheapest),
         dates) := by
  intro dates
  induction dates with
  | nil => intro cheapest _; rfl
  | cons d ds ih =>
    intro cheapest hwf
    have hwfd : fetchWF (fetch d) = true := hwf d (List.mem_cons_self d ds)
    have hwfds : ∀ x ∈ ds, fetchWF (fetch x) = true :=
      fun x hx => hwf x (List.mem_cons_of_mem d hx)
    cases hfd : fetch d with
    | reqError =>
      simp [fcf_go, hfd, apiQuotes, List.filterMap_cons, ih cheapest hwfds]
    | badRequest =>
      simp [fcf_go, hfd, apiQuotes, List.filterMap_cons, ih cheapest hwfds]
    | okOffers offers =>
      by_cases hE : offers.isEmpty
      · have hnil : offers = [] := List.isEmpty_iff.mp hE
        subst hnil
        simp [fcf_go, hfd, apiQuotes, List.filterMap_cons, batchMin, batchVals,
          ih cheapest hwfds]
      · have hEf : offers.isEmpty = false := Bool.eq_false_iff.mpr hE
        rw [hfd] at hwfd
        rcases batchMin_of_all offers hEf hwfd with ⟨p, hp⟩
        have hstep : (match cheapest with
            | none => some (⟨p, d, d + dur⟩ : ApiFlight)
            | some c =>
              if p < c.price then some (⟨p, d, d + dur⟩ : ApiFlight) else some c) =
            pyStep (fun f : ApiFlight => f.price) cheapest ⟨p, d, d + dur⟩ := by
          cases cheapest with
          | none => rfl
          | some c => simp only [pyStep]
        simp only [fcf_go, hfd, hEf, Bool.false_eq_true, if_false, hp]
        rw [hstep, ih _ hwfds]
        simp [apiQuotes, List.filterMap_cons, hfd, hp]

theorem find_cheapest_flight_eq (fetch : ℤ → FetchResult) (s e dur : ℤ)
    (hwf : ∀ d ∈ searchDates s e, fetchWF (fetch d) = true) :
    find_cheapest_flight fetch s e dur =
        Except.ok (firstMinBy (fun f => f.price) (apiQuotes fetch dur (searchDates s e)))
      ∧ consultedDates fetch s e dur = searchDates s e := by
  unfold find_cheapest_flight consultedDates
  rw [fcf_go_spec fetch dur (searchDates s e) none hwf]
  exact ⟨by rw [← pyMin, pyMin_eq_firstMinBy], rfl⟩

/-! ### Helper lemmas: the call trace of the scraper engine -/

theorem engineTrace_fold (sg sk : ℤ → ℤ → Option ScrapedFlight) :
    ∀ (l : List (ℤ × ℤ)) (acc : Option ScrapedFlight × WithTop ℚ)
      (tr : List (SourceId × ℤ × ℤ)),
      l.foldl (engineTraceStep sg sk) (acc, tr) =
        (l.foldl (engineStep sg sk) acc,
         tr ++ l.flatMap (fun dr => (tryPairTrace sg sk dr.1 dr.2).2)) := by
  intro l
  induction l with
  | nil => intro acc tr; simp
  | cons dr l ih =>
    intro acc tr
    rw [List.foldl_cons, List.foldl_cons]
    have hstep : engineTraceStep sg sk (acc, tr) dr =
        (engineStep sg sk acc dr, tr ++ (tryPairTrace sg sk dr.1 dr.2).2) := rfl
    rw [hstep, ih]
    simp [List.flatMap_cons, List.append_assoc]

theorem googleCallPairs_flatMap (sg sk : ℤ → ℤ → Option ScrapedFlight) :
    ∀ (l : List (ℤ × ℤ)),
      googleCallPairs (l.flatMap (fun dr => (tryPairTrace sg sk dr.1 dr.2).2)) = l := by
  intro l
  induction l with
  | nil => rfl
  | cons dr l ih =>
    rw [List.flatMap_cons]
    unfold googleCallPairs at ih ⊢
    rw [List.filterMap_append, ih]
    cases h : sg dr.1 dr.2 <;>
      simp [tryPairTrace, h, List.filterMap_cons]

theorem check_all_dates_trace_spec (sg sk : ℤ → ℤ → Option ScrapedFlight)
    (search_days : ℕ) (today : ℤ) :
    (check_all_dates_trace sg sk search_days today).1 =
        check_all_dates sg sk search_days today
      ∧ googleCallPairs (check_all_dates_trace sg sk search_days today).2 =
        dateSpace search_days today := by
  unfold check_all_dates_trace check_all_dates
  rw [engineTrace_fold sg sk (dateSpace search_days today) (none, ⊤) []]
  exact ⟨rfl, by simpa using googleCallPairs_flatMap sg sk (dateSpace search_days today)⟩

/-! ### Claim theorems -/

/-- C1 (amended): the discovery operation returns the first-encountered quote
of minimum price among the finite-priced quotes obtained over the enumerated
date pairs, or `none` when no pair yielded a finite-priced quote.  In the
scraper this filters out quotes carrying the `float('inf')` sentinel (the
strict comparison against the running best never accepts them); in the API
variant, whenever every successful response carries well-formed offers, the
result is the first-encountered quote of minimum price among all quotes
obtained (`Except.ok none` when no pair yielded one). -/
theorem discovery_returns_first_minimum :
    (∀ (sg sk : ℤ → ℤ → Option ScrapedFlight) (search_days : ℕ) (today : ℤ),
      check_all_dates sg sk search_days today =
        firstMinBy (fun f => f.price)
          ((quotesOf sg sk search_days today).filter
            (fun f => decide (f.price < (⊤ : WithTop ℚ)))))
    ∧ (∀ (fetch : ℤ → FetchResult) (s e dur : ℤ),
      (∀ d ∈ searchDates s e, fetchWF (fetch d) = true) →
      find_cheapest_flight fetch s e dur =
        Except.ok (firstMinBy (fun f => f.price) (apiQuotes fetch dur (searchDates s e)))) :=
  ⟨check_all_dates_eq, fun fetch s e dur h => (find_cheapest_flight_eq fetch s e dur h).1⟩

/-- C1 counterexample: against the claim as stated, the scraper's discovery
can return `None` although a pair did yield a quote — with a source whose only
card has an unparseable price text, every pair yields a quote priced
`float('inf')`, yet `check_all_dates` returns `None` instead of the minimum
over the obtained quotes. -/
theorem discovery_drops_infinite_quote_cx :
    quotesOf sgInf skNone 1 0 ≠ [] ∧ check_all_dates sgInf skNone 1 0 = none := by
  refine ⟨?_, ?_⟩ <;> decide

/-- Witness for C1: the API-variant statement applied to an endpoint that
always returns one well-formed 350-dollar offer. -/
theorem discovery_returns_first_minimum_witness :
    find_cheapest_flight fetchConst 1 3 14 =
      Except.ok (firstMinBy (fun f => f.price) (apiQuotes fetchConst 14 (searchDates 1 3))) :=
  discovery_returns_first_minimum.2 fetchConst 1 3 14 (by decide)

/-- C2: every generated pair has its departure inside
`[today + 1, today + search_days]`, its return strictly after the departure,
and both dates inside the enumeration horizon (`today + search_days + 7` for
the scraper's 2-7 day trip sweep; `departure + trip_duration` for the API
variant's fixed stay). -/
theorem generated_pairs_in_window :
    (∀ (search_days : ℕ) (today d r : ℤ), 1 ≤ search_days →
      (d, r) ∈ dateSpace search_days today →
      today + 1 ≤ d ∧ d ≤ today + (search_days : ℤ) ∧ d < r ∧
        r ≤ today + (search_days : ℤ) + 7)
    ∧ (∀ (search_days trip_duration today d : ℤ), 1 ≤ search_days → 1 ≤ trip_duration →
      d ∈ searchDates (today + 1) (today + search_days) →
      today + 1 ≤ d ∧ d ≤ today + search_days ∧ d < d + trip_duration ∧
        d + trip_duration ≤ today + search_days + trip_duration) := by
  constructor
  · intro n t d r _ hmem
    rw [dateSpace] at hmem
    rcases List.mem_flatMap.mp hmem with ⟨i, hi, hmem2⟩
    rcases List.mem_map.mp hmem2 with ⟨j, hj, heq⟩
    rw [Prod.mk.injEq] at heq
    obtain ⟨h1, h2⟩ := heq
    have hi2 : i < n := List.mem_range.mp hi
    have hj2 : j < 6 := List.mem_range.mp hj
    omega
  · intro n dur t d _ hdur hmem
    rw [searchDates] at hmem
    rcases List.mem_map.mp hmem with ⟨i, hi, h1⟩
    have hi2 : i < (t + n + 1 - (t + 1)).toNat := List.mem_range.mp hi
    omega

/-- Witness for C2: the pair `(1, 3)` generated with `search_days = 2` and
`today = 0` satisfies the window bounds. -/
theorem generated_pairs_in_window_witness :
    (0 : ℤ) + 1 ≤ 1 ∧ (1 : ℤ) ≤ 0 + ((2 : ℕ) : ℤ) ∧ (1 : ℤ) < 3 ∧
      (3 : ℤ) ≤ 0 + ((2 : ℕ) : ℤ) + 7 :=
  generated_pairs_in_window.1 2 0 1 3 (by norm_num) (by decide)

/-- C3: the new-record test used by both variants returns true exactly when
the candidate price is strictly below the current record price; an equal
price yields false. -/
theorem isNewRecord_strict :
    ∀ (candidate current : WithTop ℚ),
      (isNewRecord candidate current = true ↔ candidate < current)
      ∧ (candidate = current → isNewRecord candidate current = false) := by
  intro c r
  refine ⟨by simp [isNewRecord], ?_⟩
  intro h
  subst h
  simp [isNewRecord]

/-- Witness for C3: candidate 250.00 against record 250.00 is no new record;
candidate 249.99 against record 250.00 is one. -/
theorem isNewRecord_strict_witness :
    isNewRecord ((250 : ℚ) : WithTop ℚ) ((250 : ℚ) : WithTop ℚ) = false ∧
      isNewRecord ((24999 / 100 : ℚ) : WithTop ℚ) ((250 : ℚ) : WithTop ℚ) = true :=
  ⟨(isNewRecord_strict _ _).2 rfl,
   (isNewRecord_strict _ _).1.mpr (WithTop.coe_lt_coe.mpr (by norm_num))⟩

/-- C4 (amended): every price `parse_price` yields is non-negative, and every
quote returned by `search_google_flights` has a non-negative price; however
the price can be the `float('inf')` sentinel — when the price element's text
holds no digit, `parse_price` returns infinity and the lookup returns a quote
carrying that non-finite price instead of an absent result. -/
theorem lookup_price_nonneg :
    (∀ (s : String) (p : WithTop ℚ), parse_price s = some p → 0 ≤ p)
    ∧ (∀ (page : PageResult) (d r : ℤ) (f : ScrapedFlight),
        search_google_flights page d r = some f → 0 ≤ f.price) := by
  have hpp : ∀ (s : String) (p : WithTop ℚ), parse_price s = some p → 0 ≤ p := by
    intro s p hp
    unfold parse_price at hp
    rcases h1 : firstPriceRun s.data with _ | run
    · simp only [h1, Option.some.injEq] at hp
      exact hp ▸ le_top
    · simp only [h1] at hp
      rcases h2 : run.filter Char.isDigit with _ | ⟨c, cs⟩
      · simp only [h2] at hp
        cases hp
      · simp only [h2, Option.some.injEq] at hp
        rw [← hp]
        exact_mod_cast Nat.cast_nonneg (digitsVal (c :: cs))
  refine ⟨hpp, ?_⟩
  intro page d r f hs
  cases page with
  | failure => cases hs
  | results elems =>
    simp only [search_google_flights] at hs
    rw [pyMin_eq_firstMinBy] at hs
    have hf := firstMinBy_mem (fun g : ScrapedFlight => g.price) _ f hs
    rcases List.mem_filterMap.mp hf with ⟨e, _, he⟩
    unfold processElem at he
    rcases hpt : e.priceText with _ | t
    · simp only [hpt] at he
      cases he
    · simp only [hpt] at he
      rcases hpr : parse_price t with _ | p
      · simp only [hpr] at he
        cases he
      · simp only [hpr] at he
        have hle := hpp t p hpr
        rcases hd : e.details with _ | ⟨a, b⟩
        · simp only [hd] at he
          cases he
          exact hle
        · simp only [hd] at he
          cases he
          exact hle

/-- C4 counterexample: a results page whose only card carries the price text
"N/A" makes the lookup return a quote with price `float('inf')` — not `None`,
and not a finite price — refuting the claim that every produced quote has a
finite price. -/
theorem lookup_yields_infinite_quote_cx :
    search_google_flights pageInf 1 3 =
      some ⟨(⊤ : WithTop ℚ), "Unknown", "Unknown", 1, 3⟩ := by
  decide

/-- Witness for C4: a parseable price text yields a non-negative price. -/
theorem lookup_price_nonneg_witness :
    (0 : WithTop ℚ) ≤ ((429 : ℚ) : WithTop ℚ) :=
  lookup_price_nonneg.1 "$429" ((429 : ℚ) : WithTop ℚ) (by decide)

/-- C5 (amended): the scraper's `load_price_history` never raises — a
missing, corrupt, or unreadable history leaves the infinite-price sentinel
state in place; the API variant's `load_best_price` returns the sentinel only
when the ledger file is missing and returns the stored record when the file
parses, but it propagates the failure when an existing file is corrupt or
unreadable. -/
theorem ledger_load_behavior :
    load_price_history HistoryFileState.missing = ((⊤ : WithTop ℚ), none)
    ∧ load_price_history HistoryFileState.corrupt = ((⊤ : WithTop ℚ), none)
    ∧ load_best_price LedgerFileState.missing = Except.ok ⟨(⊤ : WithTop ℚ)⟩
    ∧ (∀ r, load_best_price (LedgerFileState.valid r) = Except.ok r)
    ∧ load_best_price LedgerFileState.corrupt = Except.error () :=
  ⟨rfl, rfl, rfl, fun _ => rfl, rfl⟩

/-- C5 counterexample: a corrupt (existing but unparseable) ledger file makes
`load_best_price` raise — `json.load` runs with no handler — refuting the
claim that the ledger load returns without raising for every file state. -/
theorem load_best_price_corrupt_cx :
    load_best_price LedgerFileState.corrupt = Except.error () := rfl

/-- C6 (amended): `save_best_price` overwrites the ledger file in place —
`open(path, "w")` truncates it, then the serialized record is written.  After
the operation the file holds exactly the new record, but between the two
steps a reader observes an empty file, so the replacement is not atomic and
no temporary-file-and-rename scheme is involved. -/
theorem save_overwrites_in_place :
    ∀ (init data : String),
      visibleContents init (save_best_price_ops data) = [init, "", data] := by
  intro init data
  rfl

/-- C6 counterexample: during a commit that replaces stored content "old"
with "new", a reader can observe the empty content "" — a state that is
neither the prior record nor the new one — refuting atomic replacement. -/
theorem save_not_atomic_cx :
    "" ∈ visibleContents "old" (save_best_price_ops "new")
      ∧ "" ≠ "old" ∧ "" ≠ "new" := by
  decide

/-- C7 (amended): the scraper's discovery never raises — it consults every
pair of the date space whatever the sources do (the Google source is called
on every enumerated pair) and returns `None` when every lookup fails.  The
API variant absorbs request-level failures (request exceptions, status 400,
empty offer lists), attempting the full sweep and returning `Ok None` when
every lookup fails; and whenever all successful responses are well-formed it
returns normally after the full sweep.  (A malformed offer, by contrast,
raises past the boundary — see the counterexample.) -/
theorem discovery_absorbs_failures :
    (∀ (sg sk : ℤ → ℤ → Option ScrapedFlight) (search_days : ℕ) (today : ℤ),
      googleCallPairs (check_all_dates_trace sg sk search_days today).2 =
          dateSpace search_days today
        ∧ (check_all_dates_trace sg sk search_days today).1 =
          check_all_dates sg sk search_days today)
    ∧ (∀ (sg sk : ℤ → ℤ → Option ScrapedFlight) (search_days : ℕ) (today : ℤ),
      (∀ d r, sg d r = none) → (∀ d r, sk d r = none) →
      check_all_dates sg sk search_days today = none)
    ∧ (∀ (fetch : ℤ → FetchResult) (s e dur : ℤ),
      (∀ d ∈ searchDates s e,
        fetch d = FetchResult.reqError ∨ fetch d = FetchResult.badRequest
          ∨ fetch d = FetchResult.okOffers []) →
      find_cheapest_flight fetch s e dur = Except.ok none
        ∧ consultedDates fetch s e dur = searchDates s e)
    ∧ (∀ (fetch : ℤ → FetchResult) (s e dur : ℤ),
      (∀ d ∈ searchDates s e, fetchWF (fetch d) = true) →
      (∃ res, find_cheapest_flight fetch s e dur = Except.ok res)
        ∧ consultedDates fetch s e dur = searchDates s e) := by
  refine ⟨?_, ?_, ?_, ?_⟩
  · intro sg sk n t
    exact ⟨(check_all_dates_trace_spec sg sk n t).2, (check_all_dates_trace_spec sg sk n t).1⟩
  · intro sg sk n t hsg hsk
    rw [check_all_dates_eq]
    have hq : quotesOf sg sk n t = [] := by
      apply filterMap_none_of
      intro dr _
      simp [tryPair, tryPairTrace, hsg dr.1 dr.2, hsk dr.1 dr.2]
    rw [hq]
    rfl
  · intro fetch s e dur hall
    have hwf : ∀ d ∈ searchDates s e, fetchWF (fetch d) = true := by
      intro d hd
      rcases hall d hd with h | h | h <;> simp [fetchWF, h]
    obtain ⟨h1, h2⟩ := find_cheapest_flight_eq fetch s e dur hwf
    refine ⟨?_, h2⟩
    have hq : apiQuotes fetch dur (searchDates s e) = [] := by
      apply filterMap_none_of
      intro d hd
      rcases hall d hd with h | h | h <;> simp [h, batchMin, batchVals]
    rw [h1, hq]
    rfl
  · intro fetch s e dur hwf
    obtain ⟨h1, h2⟩ := find_cheapest_flight_eq fetch s e dur hwf
    exact ⟨⟨_, h1⟩, h2⟩

/-- C7 counterexample: a successful response carrying one malformed offer
(its price field cannot be read) makes `find_cheapest_flight` raise past its
boundary — the `KeyError`/`ValueError` from the key function of `min` is not
a `RequestException` and is not caught — refuting the claim that every failed
lookup is absorbed locally for every source behavior. -/
theorem find_cheapest_raises_cx :
    find_cheapest_flight fetchBad 1 1 14 = Except.error () := by
  rfl

/-- Witness for C7: with sources that never find a flight, the scraper's
discovery returns `None`. -/
theorem discovery_absorbs_failures_witness :
    check_all_dates skNone skNone 1 0 = none :=
  discovery_absorbs_failures.2.1 skNone skNone 1 0 (fun _ _ => rfl) (fun _ _ => rfl)

/-- C8: for every date pair the engine consults the sources in priority
order and uses the first non-absent result: the Google source is always
consulted first; when it returns a quote, that quote is the pair's result and
Kayak is not consulted; when it returns `None`, Kayak is consulted and its
result is the pair's result. -/
theorem fallback_priority_order :
    ∀ (sg sk : ℤ → ℤ → Option ScrapedFlight) (d r : ℤ),
      (tryPairTrace sg sk d r).2.head? = some (SourceId.google, d, r)
      ∧ (∀ f, sg d r = some f →
          tryPairTrace sg sk d r = (some f, [(SourceId.google, d, r)]))
      ∧ (sg d r = none →
          tryPairTrace sg sk d r =
            (sk d r, [(SourceId.google, d, r), (SourceId.kayak, d, r)]))
      ∧ tryPair sg sk d r = (tryPairTrace sg sk d r).1 := by
  intro sg sk d r
  refine ⟨?_, ?_, ?_, rfl⟩
  · cases h : sg d r <;> simp [tryPairTrace, h]
  · intro f hf
    simp [tryPairTrace, hf]
  · intro h0
    simp [tryPairTrace, h0]

/-- Witness for C8: with an absent primary and a quoting secondary, the
pair's result is the secondary's quote and both sources appear in the trace
in priority order. -/
theorem fallback_priority_order_witness :
    tryPairTrace skNone skQuote 1 3 =
      (skQuote 1 3, [(SourceId.google, 1, 3), (SourceId.kayak, 1, 3)]) :=
  (fallback_priority_order skNone skQuote 1 3).2.2.1 rfl

/-- C9: in a cycle whose candidate passes the new-record test, the
notification is emitted exactly once and only after the commit returned
successfully; when the commit raises, no notification is emitted; when the
test fails or no candidate was found, neither commit nor notification
happens. -/
theorem notify_after_commit :
    ∀ (cc : Option ApiFlight) (best : WithTop ℚ) (ok : Bool),
      (cc = none → main_cycle cc best ok = [])
      ∧ (∀ fi, cc = some fi →
          (isNewRecord ((fi.price : ℚ) : WithTop ℚ) best = false →
            main_cycle cc best ok = [])
          ∧ (isNewRecord ((fi.price : ℚ) : WithTop ℚ) best = true →
            (ok = true → main_cycle cc best ok =
              [CycleAction.commitAttempt fi, CycleAction.commitDone fi,
               CycleAction.notify fi])
            ∧ (ok = false →
              main_cycle cc best ok = [CycleAction.commitAttempt fi]))) := by
  intro cc best ok
  constructor
  · intro h
    subst h
    rfl
  · intro fi hfi
    subst hfi
    constructor
    · intro hI
      simp [main_cycle, hI]
    · intro hI
      constructor
      · intro hok
        subst hok
        simp [main_cycle, hI]
      · intro hok
        subst hok
        simp [main_cycle, hI]

/-- Witness for C9: a 300-dollar candidate against the fresh (infinite)
record, with a succeeding commit, produces exactly the trace
commit-attempt, commit-done, notify. -/
theorem notify_after_commit_witness :
    main_cycle (some cheapFlight) ⊤ true =
      [CycleAction.commitAttempt cheapFlight, CycleAction.commitDone cheapFlight,
       CycleAction.notify cheapFlight] :=
  (((notify_after_commit (some cheapFlight) ⊤ true).2 cheapFlight rfl).2 (by decide)).1 rfl

/-- C10: whatever the sources return — even quotes carrying the
`float('inf')` sentinel — `check_all_dates` returns either `None` or a quote
whose price is strictly below infinity: the strict comparison against the
running best, initialized to infinity, never accepts a non-finite price. -/
theorem check_result_price_finite :
    ∀ (sg sk : ℤ → ℤ → Option ScrapedFlight) (search_days : ℕ) (today : ℤ)
      (f : ScrapedFlight),
      check_all_dates sg sk search_days today = some f →
      f.price < (⊤ : WithTop ℚ) := by
  intro sg sk n t f h
  rw [check_all_dates_eq] at h
  have hmem := firstMinBy_mem _ _ f h
  have hsp := List.mem_filter.mp hmem
  simpa using hsp.2

/-- Witness for C10: a source constantly quoting 100 dollars yields a result
whose price is finite. -/
theorem check_result_price_finite_witness :
    ((100 : ℚ) : WithTop ℚ) < (⊤ : WithTop ℚ) :=
  check_result_price_finite sgConst skNone 1 0
    ⟨((100 : ℚ) : WithTop ℚ), "A", "D", 1, 3⟩ (by decide)

end FlightChecker
